import Mathlib

/-!
# Verification of the AtaHub Carona ingestion pipeline

Shallow embedding of the ETL ingestion script `etl/ingestor.py` (function
`run_etl`) together with the relational schema of
`migrations/001_enhanced_schema.sql` (tables `orgaos`, `arps`, `itens_arp`,
`etl_executions`, `etl_errors`).

Modelling decisions, each traceable to the source:

* JSON scalars coming from the upstream API are pass-through values for the
  ingestor (it never computes with them), so they are embedded uniformly as
  `Option String` (`none` = JSON null / absent key).
* Python's `str(x)` applied to such a scalar renders `None` as the string
  `"None"`; this is `pyStr` below.  The ingestor applies it to the agency
  code (`str(orgao.get('codigo'))`) and to the parent code
  (`str(row.get('codigoArp'))`).
* The database is a record of lists of rows, one list per table of the
  migration schema (restricted to the columns the ingestor touches, plus the
  soft-delete flag `ata_excluido` and the tables `etl_executions` /
  `etl_errors`, which exist in the schema but are never read or written by
  the ingestor).  Freshly generated UUIDs are modelled by a counter
  `nextId`.
* `psycopg2` transaction semantics: `conn.commit()` is executed once per
  parent row, so one parent's agency upsert, parent insert and item inserts
  form one transaction.  If a statement inside the transaction raises (here:
  an item `INSERT` failing), the transaction is aborted and the later
  `COMMIT` acts as `ROLLBACK`; the Python `except` swallows the exception
  and the loop continues with the next parent.  This is modelled by
  reverting to the state snapshot taken at the start of the parent's
  iteration.
* Network effects are an oracle environment `ApiEnv`: the single listing
  response, the per-parent items response (either a payload or a raised
  exception), and a per-item write-success oracle for the item `INSERT`
  statements.  A raised exception that the script does not catch is the
  `FetchResult.exn` constructor propagated out of `run_etl`.
* `run_etl` also returns the list of HTTP requests it issued, in order, so
  that properties about fetch behaviour (retries, rate limiting, which page
  is requested, which parents get an item fetch) can be stated.
-/

namespace AtahubEtl

/-- Python `str` applied to an optional JSON scalar: `str(None) = "None"`. -/
def pyStr (v : Option String) : String :=
  v.getD "None"

/-- The `orgaoGerenciador` object of a listing payload row
(`codigo`, `nome`, `siglaUf`). -/
structure OrgPayload where
  codigo : Option String
  nome : Option String
  siglaUf : Option String
deriving DecidableEq, Repr

/-- One row of the `resultado` array of the parent-listing endpoint, with the
fields `run_etl` reads. -/
structure ArpPayload where
  orgaoGerenciador : Option OrgPayload
  codigoArp : Option String
  numeroArp : Option String
  dataInicioVigencia : Option String
  dataFimVigencia : Option String
  objeto : Option String
deriving DecidableEq, Repr

/-- One row of the `resultado` array of the items endpoint, with the fields
`run_etl` reads. -/
structure ItemPayload where
  numeroItem : Option String
  descricaoItem : Option String
  valorUnitarioHomologado : Option String
  quantidadeHomologada : Option String
  unidadeMedida : Option String
  marca : Option String
deriving DecidableEq, Repr

/-- A stored row of table `orgaos` (`uasg` is the primary key). -/
structure OrgaoRow where
  uasg : String
  nome : Option String
  uf : Option String
deriving DecidableEq, Repr

/-- A stored row of table `arps`.  `codigo_arp_api` carries the UNIQUE
constraint of the schema; `ata_excluido` is the soft-delete flag with
`DEFAULT FALSE`; `id` is the generated UUID primary key (modelled by `Nat`). -/
structure ArpRow where
  id : Nat
  codigo_arp_api : String
  numero_arp : Option String
  uasg_id : String
  data_inicio_vigencia : Option String
  data_fim_vigencia : Option String
  objeto : Option String
  ata_excluido : Bool
deriving DecidableEq, Repr

/-- A stored row of table `itens_arp`; `arp_id` references `arps.id`. -/
structure ItemRow where
  id : Nat
  arp_id : Nat
  numero_item : Option String
  descricao : Option String
  valor_unitario : Option String
  quantidade : Option String
  unidade : Option String
  marca : Option String
deriving DecidableEq, Repr

/-- A stored row of table `etl_executions` (the columns relevant to
checkpoint/resume: run type, status, and the checkpoint page). -/
structure ExecutionRow where
  execution_type : String
  status : String
  last_ata_page_processed : Option Nat
deriving DecidableEq, Repr

/-- A stored row of table `etl_errors` (the dead-letter queue / error sink). -/
structure ErrorRow where
  error_type : String
  error_message : String
  entity_identifier : String
deriving DecidableEq, Repr

/-- The relational store.  `nextId` models the UUID generator for fresh
`arps.id` / `itens_arp.id` values. -/
structure DbState where
  orgaos : List OrgaoRow
  arps : List ArpRow
  itens : List ItemRow
  executions : List ExecutionRow
  errors : List ErrorRow
  nextId : Nat
deriving DecidableEq, Repr

/-- Outcome of a Python expression that performs I/O: either a value or a
raised exception carrying its message. -/
inductive FetchResult (α : Type) where
  | ok (payload : α)
  | exn (msg : String)
deriving DecidableEq, Repr

/-- The oracle environment for one invocation of `run_etl`: the upstream
responses and the success of each item `INSERT` statement (a database write
can fail; whether it does is a function of the inserted payload). -/
structure ApiEnv where
  listingResp : FetchResult (List ArpPayload)
  itensResp : Option String → FetchResult (List ItemPayload)
  itemInsertOk : ItemPayload → Bool

/-- An HTTP request issued by `run_etl`: the parent-listing request (with its
date-range parameters and page number) or an items request (with the raw
`codigo_arp` parameter). -/
inductive ApiRequest where
  | listing (dataInicio : String) (dataFim : String) (pagina : Nat)
  | itens (codigo_arp : Option String)
deriving DecidableEq, Repr

/-- `INSERT INTO orgaos (uasg, nome, uf) VALUES ... ON CONFLICT (uasg) DO
UPDATE SET nome = EXCLUDED.nome` — on conflict only `nome` is rewritten,
`uf` keeps its stored value. -/
def upsertOrgao (st : DbState) (uasg : String) (nome uf : Option String) :
    DbState :=
  if st.orgaos.any (fun o => o.uasg = uasg) then
    { st with orgaos :=
        st.orgaos.map (fun o =>
          if o.uasg = uasg then { o with nome := nome } else o) }
  else
    { st with orgaos := st.orgaos ++ [⟨uasg, nome, uf⟩] }

/-- The `arps` row built from a listing payload row by the `INSERT INTO arps`
statement (column list of the `VALUES` clause of `run_etl`; `ata_excluido`
takes its schema default `FALSE`). -/
def mkArpRow (idv : Nat) (uasg : String) (row : ArpPayload) : ArpRow :=
  { id := idv, codigo_arp_api := pyStr row.codigoArp,
    numero_arp := row.numeroArp, uasg_id := uasg,
    data_inicio_vigencia := row.dataInicioVigencia,
    data_fim_vigencia := row.dataFimVigencia,
    objeto := row.objeto, ata_excluido := false }

/-- `INSERT INTO arps (...) VALUES (...) ON CONFLICT (codigo_arp_api) DO
NOTHING RETURNING id` — returns `some id` exactly when the row was inserted
(`cur.fetchone()` is non-`None`). -/
def insertArp (st : DbState) (row : ArpPayload) (uasg : String) :
    DbState × Option Nat :=
  if st.arps.any (fun a => a.codigo_arp_api = pyStr row.codigoArp) then
    (st, none)
  else
    ({ st with
        arps := st.arps ++ [mkArpRow st.nextId uasg row],
        nextId := st.nextId + 1 },
     some st.nextId)

/-- The `itens_arp` row built from an item payload by the `INSERT INTO
itens_arp` statement of `run_etl`. -/
def mkItemRow (idv arpId : Nat) (it : ItemPayload) : ItemRow :=
  { id := idv, arp_id := arpId, numero_item := it.numeroItem,
    descricao := it.descricaoItem,
    valor_unitario := it.valorUnitarioHomologado,
    quantidade := it.quantidadeHomologada,
    unidade := it.unidadeMedida, marca := it.marca }

/-- The `for item in itens:` loop of item `INSERT` statements.  A failing
insert raises, which breaks the loop immediately; the `Bool` result records
whether the transaction was aborted by such a failure. -/
def insertItens (env : ApiEnv) (arpId : Nat) :
    DbState → List ItemPayload → DbState × Bool
  | st, [] => (st, false)
  | st, it :: rest =>
    if env.itemInsertOk it then
      insertItens env arpId
        { st with
            itens := st.itens ++ [mkItemRow st.nextId arpId it],
            nextId := st.nextId + 1 } rest
    else (st, true)

/-- The effective `orgaoGerenciador` of a listing row
(`row.get('orgaoGerenciador', {})` — an absent key yields the empty dict). -/
def effOrg (row : ArpPayload) : OrgPayload :=
  row.orgaoGerenciador.getD ⟨none, none, none⟩

/-- One iteration of the `for row in data:` loop of `run_etl`: agency upsert,
parent insert, and — only when the parent was newly inserted — the nested
items fetch and inserts, all in one transaction committed at the end of the
iteration.  Returns the committed state and the item requests issued (one or
none).  An aborted transaction commits as a rollback to the iteration's
starting state. -/
def processRow (env : ApiEnv) (st : DbState) (row : ArpPayload) :
    DbState × List ApiRequest :=
  let st1 := upsertOrgao st (pyStr (effOrg row).codigo) (effOrg row).nome
    (effOrg row).siglaUf
  let stepped := insertArp st1 row (pyStr (effOrg row).codigo)
  match stepped.2 with
  | none => (stepped.1, [])
  | some arpId =>
    match env.itensResp row.codigoArp with
    | .exn _ => (stepped.1, [ApiRequest.itens row.codigoArp])
    | .ok its =>
      let inserted := insertItens env arpId stepped.1 its
      if inserted.2 then (st, [ApiRequest.itens row.codigoArp])
      else (inserted.1, [ApiRequest.itens row.codigoArp])

/-- The whole `for row in data:` loop, threading the store and collecting the
requests issued in order. -/
def processRows (env : ApiEnv) :
    DbState → List ArpPayload → DbState × List ApiRequest
  | st, [] => (st, [])
  | st, row :: rest =>
    let first := processRow env st row
    let others := processRows env first.1 rest
    (others.1, first.2 ++ others.2)

/-- `run_etl` of `etl/ingestor.py`: one listing request with the hard-coded
date range and `pagina = 1`, then the per-row loop.  A raised exception on
the listing fetch is not caught anywhere in `run_etl` and propagates to the
caller.  Returns the requests issued and the outcome. -/
def run_etl (env : ApiEnv) (st : DbState) :
    List ApiRequest × FetchResult DbState :=
  let req0 := ApiRequest.listing "2024-01-01" "2024-12-31" 1
  match env.listingResp with
  | .exn e => ([req0], .exn e)
  | .ok rows =>
    let result := processRows env st rows
    (req0 :: result.2, .ok result.1)

/-- The stored external parent codes. -/
def arpCodes (st : DbState) : List String :=
  st.arps.map (fun a => a.codigo_arp_api)

/-- The stored parent primary keys. -/
def arpIds (st : DbState) : List Nat :=
  st.arps.map (fun a => a.id)

/-- Referential integrity of `itens_arp.arp_id`: every item row references an
existing parent row. -/
def ItemsWF (st : DbState) : Prop :=
  ∀ it ∈ st.itens, it.arp_id ∈ arpIds st

instance (st : DbState) : Decidable (ItemsWF st) :=
  inferInstanceAs (Decidable (∀ it ∈ st.itens, it.arp_id ∈ arpIds st))

/-- The listing page is consistent about agencies: two rows naming the same
agency code carry the same agency name. -/
def OrgConsistent (rows : List ArpPayload) : Prop :=
  ∀ r1 ∈ rows, ∀ r2 ∈ rows,
    pyStr (effOrg r1).codigo = pyStr (effOrg r2).codigo →
      (effOrg r1).nome = (effOrg r2).nome

instance (rows : List ArpPayload) : Decidable (OrgConsistent rows) :=
  inferInstanceAs (Decidable (∀ r1 ∈ rows, ∀ r2 ∈ rows,
    pyStr (effOrg r1).codigo = pyStr (effOrg r2).codigo →
      (effOrg r1).nome = (effOrg r2).nome))

/-! ## Frame lemmas for the single SQL statements -/

lemma upsertOrgao_arps (st : DbState) (u : String) (n f : Option String) :
    (upsertOrgao st u n f).arps = st.arps := by
  unfold upsertOrgao; split <;> rfl

lemma upsertOrgao_itens (st : DbState) (u : String) (n f : Option String) :
    (upsertOrgao st u n f).itens = st.itens := by
  unfold upsertOrgao; split <;> rfl

lemma upsertOrgao_errors (st : DbState) (u : String) (n f : Option String) :
    (upsertOrgao st u n f).errors = st.errors := by
  unfold upsertOrgao; split <;> rfl

lemma upsertOrgao_executions (st : DbState) (u : String) (n f : Option String) :
    (upsertOrgao st u n f).executions = st.executions := by
  unfold upsertOrgao; split <;> rfl

lemma upsertOrgao_nextId (st : DbState) (u : String) (n f : Option String) :
    (upsertOrgao st u n f).nextId = st.nextId := by
  unfold upsertOrgao; split <;> rfl

lemma insertArp_orgaos (st : DbState) (row : ArpPayload) (u : String) :
    ((insertArp st row u).1).orgaos = st.orgaos := by
  unfold insertArp; split <;> rfl

lemma insertArp_itens (st : DbState) (row : ArpPayload) (u : String) :
    ((insertArp st row u).1).itens = st.itens := by
  unfold insertArp; split <;> rfl

lemma insertArp_errors (st : DbState) (row : ArpPayload) (u : String) :
    ((insertArp st row u).1).errors = st.errors := by
  unfold insertArp; split <;> rfl

lemma insertArp_executions (st : DbState) (row : ArpPayload) (u : String) :
    ((insertArp st row u).1).executions = st.executions := by
  unfold insertArp; split <;> rfl

/-- Membership of a code in the stored codes, phrased as the Boolean `any`
test that `insertArp` performs. -/
lemma mem_arpCodes_iff {st : DbState} {c : String} :
    c ∈ arpCodes st ↔ st.arps.any (fun a => a.codigo_arp_api = c) = true := by
  simp [arpCodes, List.any_eq_true, List.mem_map]

/-- The `ON CONFLICT DO NOTHING` branch: a code already present is skipped
and the store is left untouched. -/
lemma insertArp_skip {st : DbState} {row : ArpPayload} {u : String}
    (h : pyStr row.codigoArp ∈ arpCodes st) :
    insertArp st row u = (st, none) := by
  unfold insertArp
  rw [if_pos (mem_arpCodes_iff.mp h)]

/-- When `insertArp` reports an inserted id, the code was absent before. -/
lemma insertArp_some_absent {st : DbState} {row : ArpPayload} {u : String}
    {k : Nat} (h : (insertArp st row u).2 = some k) :
    pyStr row.codigoArp ∉ arpCodes st := by
  intro hmem
  rw [insertArp_skip hmem] at h
  exact Option.noConfusion h

/-- Stored codes never disappear across `insertArp`. -/
lemma insertArp_codes_mono {st : DbState} {row : ArpPayload} {u : String}
    {c : String} (h : c ∈ arpCodes st) : c ∈ arpCodes (insertArp st row u).1 := by
  unfold insertArp
  split
  · exact h
  · simp only [arpCodes, List.map_append, List.mem_append]
    exact Or.inl h

lemma insertItens_arps (env : ApiEnv) (arpId : Nat) :
    ∀ (its : List ItemPayload) (st : DbState),
      ((insertItens env arpId st its).1).arps = st.arps := by
  intro its
  induction its with
  | nil => intro st; rfl
  | cons it rest ih =>
    intro st
    unfold insertItens
    split
    · exact ih _
    · rfl

lemma insertItens_orgaos (env : ApiEnv) (arpId : Nat) :
    ∀ (its : List ItemPayload) (st : DbState),
      ((insertItens env arpId st its).1).orgaos = st.orgaos := by
  intro its
  induction its with
  | nil => intro st; rfl
  | cons it rest ih =>
    intro st
    unfold insertItens
    split
    · exact ih _
    · rfl

lemma insertItens_errors (env : ApiEnv) (arpId : Nat) :
    ∀ (its : List ItemPayload) (st : DbState),
      ((insertItens env arpId st its).1).errors = st.errors := by
  intro its
  induction its with
  | nil => intro st; rfl
  | cons it rest ih =>
    intro st
    unfold insertItens
    split
    · exact ih _
    · rfl

lemma insertItens_executions (env : ApiEnv) (arpId : Nat) :
    ∀ (its : List ItemPayload) (st : DbState),
      ((insertItens env arpId st its).1).executions = st.executions := by
  intro its
  induction its with
  | nil => intro st; rfl
  | cons it rest ih =>
    intro st
    unfold insertItens
    split
    · exact ih _
    · rfl

/-- The committed items after the item loop are the old ones followed by new
rows that all reference `arpId` and carry fresh ids. -/
lemma insertItens_shape (env : ApiEnv) (arpId : Nat) :
    ∀ (its : List ItemPayload) (st : DbState),
      ∃ tl, ((insertItens env arpId st its).1).itens = st.itens ++ tl ∧
        (∀ it ∈ tl, it.arp_id = arpId) ∧
        st.nextId ≤ ((insertItens env arpId st its).1).nextId := by
  intro its
  induction its with
  | nil => intro st; exact ⟨[], by simp [insertItens], by simp, le_refl _⟩
  | cons it rest ih =>
    intro st
    unfold insertItens
    split
    · obtain ⟨tl, h1, h2, h3⟩ :=
        ih { st with
                itens := st.itens ++ [mkItemRow st.nextId arpId it],
                nextId := st.nextId + 1 }
      refine ⟨mkItemRow st.nextId arpId it :: tl, ?_, ?_, ?_⟩
      · rw [h1]; simp
      · intro x hx
        rcases List.mem_cons.mp hx with h | h
        · subst h; rfl
        · exact h2 x h
      · exact le_trans (Nat.le_succ _) h3
    · exact ⟨[], by simp, by simp, le_refl _⟩

/-- If every item write succeeds, the item loop never aborts the
transaction. -/
lemma insertItens_no_abort (env : ApiEnv) (arpId : Nat)
    (hwr : ∀ it, env.itemInsertOk it = true) :
    ∀ (its : List ItemPayload) (st : DbState),
      (insertItens env arpId st its).2 = false := by
  intro its
  induction its with
  | nil => intro st; rfl
  | cons it rest ih =>
    intro st
    unfold insertItens
    rw [hwr it]
    exact ih _

lemma listMapId {α : Type} (f : α → α) :
    ∀ (l : List α), (∀ a ∈ l, f a = a) → l.map f = l := by
  intro l
  induction l with
  | nil => intro _; rfl
  | cons a rest ih =>
    intro h
    simp only [List.map_cons]
    rw [h a (List.mem_cons_self a rest), ih (fun x hx => h x (List.mem_cons_of_mem a hx))]

lemma upsertOrgao_arpCodes (st : DbState) (u : String) (n f : Option String) :
    arpCodes (upsertOrgao st u n f) = arpCodes st := by
  unfold arpCodes; rw [upsertOrgao_arps]

lemma upsertOrgao_arpIds (st : DbState) (u : String) (n f : Option String) :
    arpIds (upsertOrgao st u n f) = arpIds st := by
  unfold arpIds; rw [upsertOrgao_arps]

/-- After the agency upsert, an agency row with the upserted key exists. -/
lemma upsertOrgao_any_self (st : DbState) (u : String) (n f : Option String) :
    ((upsertOrgao st u n f).orgaos.any (fun o => o.uasg = u)) = true := by
  unfold upsertOrgao
  split
  · rename_i h
    rw [List.any_eq_true] at h ⊢
    obtain ⟨o, ho, hu⟩ := h
    refine ⟨if o.uasg = u then { o with nome := n } else o, List.mem_map_of_mem _ ho, ?_⟩
    rw [decide_eq_true_eq] at hu
    simp [hu]
  · simp

/-- The agency upsert never removes an agency key. -/
lemma upsertOrgao_any_mono (st : DbState) (u' : String) (n' f' : Option String)
    (u : String) (h : (st.orgaos.any (fun o => o.uasg = u)) = true) :
    ((upsertOrgao st u' n' f').orgaos.any (fun o => o.uasg = u)) = true := by
  unfold upsertOrgao
  split
  · rw [List.any_eq_true] at h ⊢
    obtain ⟨o, ho, hu⟩ := h
    refine ⟨if o.uasg = u' then { o with nome := n' } else o, List.mem_map_of_mem _ ho, ?_⟩
    rw [decide_eq_true_eq] at hu
    by_cases h0 : o.uasg = u'
    · rw [if_pos h0]
      simpa using hu
    · rw [if_neg h0]
      simpa using hu
  · rw [List.any_append, h, Bool.true_or]

/-- After the agency upsert, every stored row with the upserted key carries
the upserted name. -/
lemma upsertOrgao_nome_self (st : DbState) (u : String) (n f : Option String) :
    ∀ o ∈ (upsertOrgao st u n f).orgaos, o.uasg = u → o.nome = n := by
  unfold upsertOrgao
  split
  · intro o ho hu
    rw [List.mem_map] at ho
    obtain ⟨o0, ho0, rfl⟩ := ho
    by_cases h0 : o0.uasg = u
    · simp [h0]
    · rw [if_neg h0] at hu ⊢
      exact absurd hu h0
  · rename_i hany
    intro o ho hu
    rcases List.mem_append.mp ho with h | h
    · exfalso
      apply hany
      rw [List.any_eq_true]
      exact ⟨o, h, by simp [hu]⟩
    · rw [List.mem_singleton] at h
      subst h
      rfl

/-- The agency upsert with key `u'` and name `n'` preserves the property
"every stored row keyed `u` has name `n`", provided `u' = u` implies
`n' = n`. -/
lemma upsertOrgao_nome_other (st : DbState) (u' : String) (n' f' : Option String)
    (u : String) (n : Option String) (himp : u' = u → n' = n)
    (h : ∀ o ∈ st.orgaos, o.uasg = u → o.nome = n) :
    ∀ o ∈ (upsertOrgao st u' n' f').orgaos, o.uasg = u → o.nome = n := by
  unfold upsertOrgao
  split
  · intro o ho hu
    rw [List.mem_map] at ho
    obtain ⟨o0, ho0, rfl⟩ := ho
    by_cases h0 : o0.uasg = u'
    · rw [if_pos h0] at hu ⊢
      exact himp (by rw [← h0, hu]) ▸ rfl
    · rw [if_neg h0] at hu ⊢
      exact h o0 ho0 hu
  · intro o ho hu
    rcases List.mem_append.mp ho with hmem | hmem
    · exact h o hmem hu
    · rw [List.mem_singleton] at hmem
      subst hmem
      exact himp hu

/-- When the stored rows keyed `u` already carry name `n`, the agency upsert
is the identity on the store. -/
lemma upsertOrgao_id (st : DbState) (u : String) (n f : Option String)
    (hany : (st.orgaos.any (fun o => o.uasg = u)) = true)
    (hnome : ∀ o ∈ st.orgaos, o.uasg = u → o.nome = n) :
    upsertOrgao st u n f = st := by
  unfold upsertOrgao
  rw [if_pos hany]
  have hmap : st.orgaos.map
      (fun o => if o.uasg = u then { o with nome := n } else o) = st.orgaos := by
    apply listMapId
    intro o ho
    by_cases h0 : o.uasg = u
    · rw [if_pos h0, ← hnome o ho h0]
    · rw [if_neg h0]
  rw [hmap]

/-- The skip/insert dichotomy of `insertArp`, by cases on presence. -/
lemma insertArp_not_mem {st : DbState} {row : ArpPayload} {u : String}
    (h : pyStr row.codigoArp ∉ arpCodes st) :
    insertArp st row u =
      ({ st with
          arps := st.arps ++ [mkArpRow st.nextId u row],
          nextId := st.nextId + 1 }, some st.nextId) := by
  unfold insertArp
  rw [if_neg (fun hc => h (mem_arpCodes_iff.mpr hc))]

lemma insertArp_none_eq {st : DbState} {row : ArpPayload} {u : String}
    (h : (insertArp st row u).2 = none) : (insertArp st row u).1 = st := by
  by_cases hc : pyStr row.codigoArp ∈ arpCodes st
  · rw [insertArp_skip hc]
  · rw [insertArp_not_mem hc] at h
    exact Option.noConfusion h

lemma insertArp_some_eq {st : DbState} {row : ArpPayload} {u : String} {k : Nat}
    (h : (insertArp st row u).2 = some k) :
    (insertArp st row u).1 =
      { st with
          arps := st.arps ++ [mkArpRow st.nextId u row],
          nextId := st.nextId + 1 } ∧ k = st.nextId := by
  by_cases hc : pyStr row.codigoArp ∈ arpCodes st
  · rw [insertArp_skip hc] at h
    exact Option.noConfusion h
  · rw [insertArp_not_mem hc] at h ⊢
    exact ⟨rfl, (Option.some.injEq _ _ ▸ h).symm⟩

/-- An item whose write fails aborts the transaction. -/
lemma insertItens_aborts (env : ApiEnv) (arpId : Nat) :
    ∀ (its : List ItemPayload) (st : DbState),
      (∃ it ∈ its, env.itemInsertOk it = false) →
      (insertItens env arpId st its).2 = true := by
  intro its
  induction its with
  | nil => intro st h; simp at h
  | cons it rest ih =>
    intro st h
    unfold insertItens
    by_cases hit : env.itemInsertOk it = true
    · rw [hit]
      simp only [if_true]
      apply ih
      obtain ⟨x, hx, hfail⟩ := h
      rcases List.mem_cons.mp hx with heq | hmem
      · subst heq; rw [hit] at hfail; exact absurd hfail (by simp)
      · exact ⟨x, hmem, hfail⟩
    · rw [Bool.not_eq_true] at hit
      rw [hit]
      simp

lemma insertArp_code_mem (st : DbState) (row : ArpPayload) (u : String) :
    pyStr row.codigoArp ∈ arpCodes (insertArp st row u).1 := by
  by_cases hc : pyStr row.codigoArp ∈ arpCodes st
  · rw [insertArp_skip hc]; exact hc
  · rw [insertArp_not_mem hc]
    simp [arpCodes, mkArpRow]

lemma insertArp_ids_mono {st : DbState} {row : ArpPayload} {u : String}
    {x : Nat} (h : x ∈ arpIds st) : x ∈ arpIds (insertArp st row u).1 := by
  by_cases hc : pyStr row.codigoArp ∈ arpCodes st
  · rw [insertArp_skip hc]; exact h
  · rw [insertArp_not_mem hc]
    simp only [arpIds, List.map_append, List.mem_append]
    exact Or.inl h

lemma insertArp_nextId_mono (st : DbState) (row : ArpPayload) (u : String) :
    st.nextId ≤ ((insertArp st row u).1).nextId := by
  by_cases hc : pyStr row.codigoArp ∈ arpCodes st
  · rw [insertArp_skip hc]
  · rw [insertArp_not_mem hc]
    exact Nat.le_succ _

lemma insertArp_some_id_mem {st : DbState} {row : ArpPayload} {u : String}
    {k : Nat} (h : (insertArp st row u).2 = some k) :
    k ∈ arpIds (insertArp st row u).1 := by
  obtain ⟨h1, h2⟩ := insertArp_some_eq h
  rw [h1, h2]
  simp [arpIds, mkArpRow]

/-- A freshly inserted parent code was inserted with nodup codes kept. -/
lemma insertArp_nodup {st : DbState} {row : ArpPayload} {u : String}
    (h : (arpCodes st).Nodup) : (arpCodes (insertArp st row u).1).Nodup := by
  by_cases hc : pyStr row.codigoArp ∈ arpCodes st
  · rw [insertArp_skip hc]; exact h
  · rw [insertArp_not_mem hc]
    have : arpCodes
        { st with
          arps := st.arps ++ [mkArpRow st.nextId u row],
          nextId := st.nextId + 1 } =
        arpCodes st ++ [pyStr row.codigoArp] := by
      simp [arpCodes, mkArpRow]
    rw [this, List.nodup_append]
    refine ⟨h, List.nodup_singleton _, ?_⟩
    intro a ha hmem
    rw [List.mem_singleton] at hmem
    subst hmem
    exact hc ha

lemma insertItens_arpCodes (env : ApiEnv) (arpId : Nat)
    (its : List ItemPayload) (st : DbState) :
    arpCodes ((insertItens env arpId st its).1) = arpCodes st := by
  unfold arpCodes; rw [insertItens_arps]

lemma insertItens_arpIds (env : ApiEnv) (arpId : Nat)
    (its : List ItemPayload) (st : DbState) :
    arpIds ((insertItens env arpId st its).1) = arpIds st := by
  unfold arpIds; rw [insertItens_arps]

/-! ## Lemmas about one iteration of the parent loop -/

lemma processRow_errors (env : ApiEnv) (st : DbState) (row : ArpPayload) :
    ((processRow env st row).1).errors = st.errors := by
  unfold processRow
  dsimp only
  split
  · rw [insertArp_errors, upsertOrgao_errors]
  · split
    · rw [insertArp_errors, upsertOrgao_errors]
    · split
      · rfl
      · rw [insertItens_errors, insertArp_errors, upsertOrgao_errors]

lemma processRow_executions (env : ApiEnv) (st : DbState) (row : ArpPayload) :
    ((processRow env st row).1).executions = st.executions := by
  unfold processRow
  dsimp only
  split
  · rw [insertArp_executions, upsertOrgao_executions]
  · split
    · rw [insertArp_executions, upsertOrgao_executions]
    · split
      · rfl
      · rw [insertItens_executions, insertArp_executions, upsertOrgao_executions]

lemma processRow_codes_mono {env : ApiEnv} {st : DbState} {row : ArpPayload}
    {c : String} (h : c ∈ arpCodes st) :
    c ∈ arpCodes (processRow env st row).1 := by
  unfold processRow
  dsimp only
  split
  · exact insertArp_codes_mono (by rwa [upsertOrgao_arpCodes])
  · split
    · exact insertArp_codes_mono (by rwa [upsertOrgao_arpCodes])
    · split
      · exact h
      · rw [insertItens_arpCodes]
        exact insertArp_codes_mono (by rwa [upsertOrgao_arpCodes])

/-- An item fetch is issued only for a parent whose code was absent from the
store when its row was processed. -/
lemma processRow_reqs {env : ApiEnv} {st : DbState} {row : ArpPayload}
    {c : Option String}
    (h : ApiRequest.itens c ∈ (processRow env st row).2) :
    pyStr c ∉ arpCodes st := by
  unfold processRow at h
  dsimp only at h
  split at h
  · simp at h
  · rename_i arpId heq
    have habs := insertArp_some_absent heq
    rw [upsertOrgao_arpCodes] at habs
    split at h
    · rw [List.mem_singleton, ApiRequest.itens.injEq] at h
      subst h
      exact habs
    · split at h <;>
        · rw [List.mem_singleton, ApiRequest.itens.injEq] at h
          subst h
          exact habs

/-- The filtered view of rows carrying a code already present is untouched
by one loop iteration: the matching rows are neither duplicated nor
updated. -/
lemma processRow_filter {env : ApiEnv} {st : DbState} {row : ArpPayload}
    {c : String} (h : c ∈ arpCodes st) :
    ((processRow env st row).1).arps.filter (fun a => a.codigo_arp_api = c) =
      st.arps.filter (fun a => a.codigo_arp_api = c) := by
  have key : ∀ X : DbState, c ∈ arpCodes X → X.arps = st.arps →
      ∀ h2 : DbState, ∀ k : Option Nat, insertArp X row (pyStr (effOrg row).codigo) = (h2, k) →
      h2.arps.filter (fun a => a.codigo_arp_api = c) =
        st.arps.filter (fun a => a.codigo_arp_api = c) := by
    intro X hcX harps h2 k hins
    by_cases hc : pyStr row.codigoArp ∈ arpCodes X
    · rw [insertArp_skip hc] at hins
      cases hins
      rw [harps]
    · rw [insertArp_not_mem hc] at hins
      cases hins
      have hne : ¬ (mkArpRow X.nextId (pyStr (effOrg row).codigo) row).codigo_arp_api = c := by
        intro he
        have he2 : pyStr row.codigoArp = c := he
        exact hc (by rw [he2]; exact hcX)
      dsimp only
      rw [List.filter_append, harps]
      simp [hne]
  unfold processRow
  dsimp only
  split
  · rename_i heq
    rw [insertArp_none_eq heq, upsertOrgao_arps]
  · rename_i arpId heq
    have hc1 : c ∈ arpCodes (upsertOrgao st (pyStr (effOrg row).codigo)
        (effOrg row).nome (effOrg row).siglaUf) := by
      rwa [upsertOrgao_arpCodes]
    have hfil := key _ hc1 (upsertOrgao_arps _ _ _ _) _ _ rfl
    split
    · exact hfil
    · split
      · rfl
      · rw [insertItens_arps]
        exact hfil

/-- Referential integrity is preserved by one loop iteration. -/
lemma processRow_wf {env : ApiEnv} {st : DbState} {row : ArpPayload}
    (h : ItemsWF st) : ItemsWF (processRow env st row).1 := by
  unfold processRow
  dsimp only
  split
  · rename_i heq
    rw [insertArp_none_eq heq]
    intro it hit
    rw [upsertOrgao_itens] at hit
    rw [upsertOrgao_arpIds]
    exact h it hit
  · rename_i arpId heq
    split
    · intro it hit
      rw [insertArp_itens, upsertOrgao_itens] at hit
      exact insertArp_ids_mono (by rw [upsertOrgao_arpIds]; exact h it hit)
    · split
      · exact h
      · rename_i its heq2 habort
        intro it hit
        obtain ⟨tl, hsh, harp, -⟩ := insertItens_shape env arpId its _
        rw [hsh] at hit
        rw [insertItens_arpIds]
        rcases List.mem_append.mp hit with hold | hnew
        · rw [insertArp_itens, upsertOrgao_itens] at hold
          exact insertArp_ids_mono (by rw [upsertOrgao_arpIds]; exact h it hold)
        · rw [harp it hnew]
          exact insertArp_some_id_mem heq

/-- Uniqueness of stored parent codes is preserved by one loop iteration. -/
lemma processRow_nodup {env : ApiEnv} {st : DbState} {row : ArpPayload}
    (h : (arpCodes st).Nodup) : (arpCodes (processRow env st row).1).Nodup := by
  unfold processRow
  dsimp only
  split
  · rename_i heq
    rw [insertArp_none_eq heq, upsertOrgao_arpCodes]
    exact h
  · split
    · exact insertArp_nodup (by rwa [upsertOrgao_arpCodes])
    · split
      · exact h
      · rw [insertItens_arpCodes]
        exact insertArp_nodup (by rwa [upsertOrgao_arpCodes])

/-! ## Lemmas about the whole parent loop and the run -/

lemma processRows_errors (env : ApiEnv) :
    ∀ (rows : List ArpPayload) (st : DbState),
      ((processRows env st rows).1).errors = st.errors := by
  intro rows
  induction rows with
  | nil => intro st; rfl
  | cons row rest ih =>
    intro st
    unfold processRows
    dsimp only
    rw [ih, processRow_errors]

lemma processRows_executions (env : ApiEnv) :
    ∀ (rows : List ArpPayload) (st : DbState),
      ((processRows env st rows).1).executions = st.executions := by
  intro rows
  induction rows with
  | nil => intro st; rfl
  | cons row rest ih =>
    intro st
    unfold processRows
    dsimp only
    rw [ih, processRow_executions]

lemma processRows_codes_mono (env : ApiEnv) :
    ∀ (rows : List ArpPayload) (st : DbState) (c : String),
      c ∈ arpCodes st → c ∈ arpCodes (processRows env st rows).1 := by
  intro rows
  induction rows with
  | nil => intro st c h; exact h
  | cons row rest ih =>
    intro st c h
    unfold processRows
    dsimp only
    exact ih _ _ (processRow_codes_mono h)

lemma processRows_filter (env : ApiEnv) :
    ∀ (rows : List ArpPayload) (st : DbState) (c : String),
      c ∈ arpCodes st →
      ((processRows env st rows).1).arps.filter (fun a => a.codigo_arp_api = c) =
        st.arps.filter (fun a => a.codigo_arp_api = c) := by
  intro rows
  induction rows with
  | nil => intro st c _; rfl
  | cons row rest ih =>
    intro st c h
    unfold processRows
    dsimp only
    rw [ih _ _ (processRow_codes_mono h), processRow_filter h]

lemma processRows_wf (env : ApiEnv) :
    ∀ (rows : List ArpPayload) (st : DbState),
      ItemsWF st → ItemsWF (processRows env st rows).1 := by
  intro rows
  induction rows with
  | nil => intro st h; exact h
  | cons row rest ih =>
    intro st h
    unfold processRows
    dsimp only
    exact ih _ (processRow_wf h)

lemma processRows_nodup (env : ApiEnv) :
    ∀ (rows : List ArpPayload) (st : DbState),
      (arpCodes st).Nodup → (arpCodes (processRows env st rows).1).Nodup := by
  intro rows
  induction rows with
  | nil => intro st h; exact h
  | cons row rest ih =>
    intro st h
    unfold processRows
    dsimp only
    exact ih _ (processRow_nodup h)

lemma processRows_reqs (env : ApiEnv) :
    ∀ (rows : List ArpPayload) (st : DbState) (c : Option String),
      ApiRequest.itens c ∈ (processRows env st rows).2 →
      pyStr c ∉ arpCodes st := by
  intro rows
  induction rows with
  | nil => intro st c h; simp [processRows] at h
  | cons row rest ih =>
    intro st c h
    unfold processRows at h
    dsimp only at h
    rcases List.mem_append.mp h with hmem | hmem
    · exact processRow_reqs hmem
    · intro habs
      exact ih _ _ hmem (processRow_codes_mono habs)

/-- Across a run the store only grows: the item table is extended (never
rewritten) and the new item rows reference only ids allocated during this
run; stored parent codes are never lost. -/
def Grows (st st' : DbState) : Prop :=
  (∃ tl, st'.itens = st.itens ++ tl ∧ ∀ it ∈ tl, st.nextId ≤ it.arp_id) ∧
  st.nextId ≤ st'.nextId ∧ ∀ c ∈ arpCodes st, c ∈ arpCodes st'

lemma grows_refl (st : DbState) : Grows st st :=
  ⟨⟨[], (List.append_nil _).symm, by simp⟩, le_refl _, fun _ hc => hc⟩

lemma grows_trans {s1 s2 s3 : DbState} (h12 : Grows s1 s2) (h23 : Grows s2 s3) :
    Grows s1 s3 := by
  obtain ⟨⟨t1, hi1, ha1⟩, hn1, hc1⟩ := h12
  obtain ⟨⟨t2, hi2, ha2⟩, hn2, hc2⟩ := h23
  refine ⟨⟨t1 ++ t2, ?_, ?_⟩, le_trans hn1 hn2, fun c hc => hc2 c (hc1 c hc)⟩
  · rw [hi2, hi1, List.append_assoc]
  · intro it hit
    rcases List.mem_append.mp hit with h | h
    · exact ha1 it h
    · exact le_trans hn1 (ha2 it h)

lemma grows_processRow (env : ApiEnv) (st : DbState) (row : ArpPayload) :
    Grows st (processRow env st row).1 := by
  unfold processRow
  dsimp only
  split
  · rename_i heq
    rw [insertArp_none_eq heq]
    refine ⟨⟨[], ?_, by simp⟩, le_of_eq (upsertOrgao_nextId _ _ _ _).symm,
      fun c hc => by rwa [upsertOrgao_arpCodes]⟩
    rw [upsertOrgao_itens]
    simp
  · rename_i arpId heq
    split
    · refine ⟨⟨[], ?_, by simp⟩, ?_,
        fun c hc => insertArp_codes_mono (by rwa [upsertOrgao_arpCodes])⟩
      · rw [insertArp_itens, upsertOrgao_itens]
        simp
      · calc st.nextId = _ := (upsertOrgao_nextId _ _ _ _).symm
          _ ≤ _ := insertArp_nextId_mono _ _ _
    · split
      · exact grows_refl st
      · rename_i its heq2 habort
        obtain ⟨tl, hsh, harp, hnext⟩ := insertItens_shape env arpId its _
        obtain ⟨hX, hk⟩ := insertArp_some_eq heq
        refine ⟨⟨tl, ?_, ?_⟩, ?_, ?_⟩
        · rw [hsh, insertArp_itens, upsertOrgao_itens]
        · intro it hit
          rw [harp it hit, hk, upsertOrgao_nextId]
        · calc st.nextId = _ := (upsertOrgao_nextId _ _ _ _).symm
            _ ≤ _ := insertArp_nextId_mono _ _ _
            _ ≤ _ := hnext
        · intro c hc
          rw [insertItens_arpCodes]
          exact insertArp_codes_mono (by rwa [upsertOrgao_arpCodes])

lemma grows_processRows (env : ApiEnv) :
    ∀ (rows : List ArpPayload) (st : DbState),
      Grows st (processRows env st rows).1 := by
  intro rows
  induction rows with
  | nil => intro st; exact grows_refl st
  | cons row rest ih =>
    intro st
    unfold processRows
    dsimp only
    exact grows_trans (grows_processRow env st row) (ih _)

/-! ## Idempotence machinery: what one processed row leaves behind -/

/-- A listing row has been fully absorbed into the store: its parent code is
present and its agency row is present carrying its agency name. -/
def RowDone (row : ArpPayload) (st : DbState) : Prop :=
  pyStr row.codigoArp ∈ arpCodes st ∧
  (st.orgaos.any (fun o => o.uasg = pyStr (effOrg row).codigo)) = true ∧
  ∀ o ∈ st.orgaos, o.uasg = pyStr (effOrg row).codigo →
    o.nome = (effOrg row).nome

/-- Under all-successful item writes, the agency table after one iteration is
exactly the agency table after the iteration's upsert. -/
lemma processRow_orgaos {env : ApiEnv} {st : DbState} {row : ArpPayload}
    (hwr : ∀ it, env.itemInsertOk it = true) :
    ((processRow env st row).1).orgaos =
      (upsertOrgao st (pyStr (effOrg row).codigo) (effOrg row).nome
        (effOrg row).siglaUf).orgaos := by
  unfold processRow
  dsimp only
  split
  · rename_i heq
    rw [insertArp_none_eq heq]
  · rename_i arpId heq
    split
    · rw [insertArp_orgaos]
    · split
      · rename_i its heq2 habort
        rw [insertItens_no_abort env arpId hwr] at habort
        exact absurd habort (by simp)
      · rw [insertItens_orgaos, insertArp_orgaos]

/-- Under all-successful item writes, the parent code is stored after its row
is processed. -/
lemma processRow_code_mem {env : ApiEnv} {st : DbState} {row : ArpPayload}
    (hwr : ∀ it, env.itemInsertOk it = true) :
    pyStr row.codigoArp ∈ arpCodes (processRow env st row).1 := by
  unfold processRow
  dsimp only
  split
  · rename_i heq
    rw [insertArp_none_eq heq]
    have := insertArp_code_mem (upsertOrgao st (pyStr (effOrg row).codigo)
      (effOrg row).nome (effOrg row).siglaUf) row (pyStr (effOrg row).codigo)
    rwa [insertArp_none_eq heq] at this
  · rename_i arpId heq
    split
    · exact insertArp_code_mem _ _ _
    · split
      · rename_i its heq2 habort
        rw [insertItens_no_abort env arpId hwr] at habort
        exact absurd habort (by simp)
      · rw [insertItens_arpCodes]
        exact insertArp_code_mem _ _ _

lemma processRow_establishes {env : ApiEnv} {st : DbState} {row : ArpPayload}
    (hwr : ∀ it, env.itemInsertOk it = true) :
    RowDone row (processRow env st row).1 := by
  refine ⟨processRow_code_mem hwr, ?_, ?_⟩
  · rw [processRow_orgaos hwr]
    exact upsertOrgao_any_self _ _ _ _
  · rw [processRow_orgaos hwr]
    exact upsertOrgao_nome_self _ _ _ _

lemma rowDone_step {env : ApiEnv} {st : DbState} {row row2 : ArpPayload}
    (hwr : ∀ it, env.itemInsertOk it = true)
    (hpair : pyStr (effOrg row2).codigo = pyStr (effOrg row).codigo →
      (effOrg row2).nome = (effOrg row).nome)
    (h : RowDone row st) : RowDone row (processRow env st row2).1 := by
  obtain ⟨h1, h2, h3⟩ := h
  refine ⟨processRow_codes_mono h1, ?_, ?_⟩
  · rw [processRow_orgaos hwr]
    exact upsertOrgao_any_mono _ _ _ _ _ h2
  · rw [processRow_orgaos hwr]
    exact upsertOrgao_nome_other _ _ _ _ _ _ hpair h3

lemma processRows_rowDone {env : ApiEnv} {row : ArpPayload}
    (hwr : ∀ it, env.itemInsertOk it = true) :
    ∀ (rest : List ArpPayload) (st : DbState),
      (∀ r2 ∈ rest, pyStr (effOrg r2).codigo = pyStr (effOrg row).codigo →
        (effOrg r2).nome = (effOrg row).nome) →
      RowDone row st → RowDone row (processRows env st rest).1 := by
  intro rest
  induction rest with
  | nil => intro st _ h; exact h
  | cons r2 rest ih =>
    intro st hp h
    unfold processRows
    dsimp only
    exact ih _ (fun r hr => hp r (List.mem_cons_of_mem _ hr))
      (rowDone_step hwr (hp r2 (List.mem_cons_self _ _)) h)

lemma orgConsistent_tail {r : ArpPayload} {rest : List ArpPayload}
    (h : OrgConsistent (r :: rest)) : OrgConsistent rest :=
  fun r1 h1 r2 h2 =>
    h r1 (List.mem_cons_of_mem _ h1) r2 (List.mem_cons_of_mem _ h2)

/-- After an all-successful pass over a consistent page, every row of the
page has been absorbed. -/
lemma processRows_establish {env : ApiEnv}
    (hwr : ∀ it, env.itemInsertOk it = true) :
    ∀ (rows : List ArpPayload) (st : DbState),
      OrgConsistent rows →
      ∀ row ∈ rows, RowDone row (processRows env st rows).1 := by
  intro rows
  induction rows with
  | nil => intro st _ row hrow; simp at hrow
  | cons r rest ih =>
    intro st hcons row hrow
    unfold processRows
    dsimp only
    rcases List.mem_cons.mp hrow with heq | hmem
    · subst heq
      refine processRows_rowDone hwr rest _ ?_ (processRow_establishes hwr)
      intro r2 h2 he
      exact hcons r2 (List.mem_cons_of_mem _ h2) row (List.mem_cons_self _ _) he
    · exact ih _ (orgConsistent_tail hcons) row hmem

/-- A fully absorbed row is a no-op for the store. -/
lemma processRow_id {env : ApiEnv} {st : DbState} {row : ArpPayload}
    (h : RowDone row st) : (processRow env st row).1 = st := by
  obtain ⟨hcode, hany, hnome⟩ := h
  unfold processRow
  dsimp only
  rw [upsertOrgao_id st _ _ _ hany hnome, insertArp_skip hcode]

lemma processRows_id {env : ApiEnv} :
    ∀ (rows : List ArpPayload) (st : DbState),
      (∀ row ∈ rows, RowDone row st) → (processRows env st rows).1 = st := by
  intro rows
  induction rows with
  | nil => intro st _; rfl
  | cons row rest ih =>
    intro st h
    unfold processRows
    dsimp only
    rw [processRow_id (h row (List.mem_cons_self _ _))]
    exact ih _ (fun r hr => h r (List.mem_cons_of_mem _ hr))

/-- Destructing a successful run. -/
lemma run_etl_ok {env : ApiEnv} {st : DbState} {reqs : List ApiRequest}
    {st' : DbState} (h : run_etl env st = (reqs, FetchResult.ok st')) :
    ∃ rows, env.listingResp = .ok rows ∧
      st' = (processRows env st rows).1 ∧
      reqs = ApiRequest.listing "2024-01-01" "2024-12-31" 1 ::
        (processRows env st rows).2 := by
  unfold run_etl at h
  cases henv : env.listingResp with
  | ok rows =>
    rw [henv] at h
    dsimp only at h
    rw [Prod.mk.injEq] at h
    obtain ⟨h1, h2⟩ := h
    rw [FetchResult.ok.injEq] at h2
    exact ⟨rows, rfl, h2.symm, h1.symm⟩
  | exn e =>
    rw [henv] at h
    dsimp only at h
    rw [Prod.mk.injEq] at h
    exact FetchResult.noConfusion h.2

/-! ## Concrete fixtures for witnesses and counterexamples -/

/-- The empty store. -/
def emptyDb : DbState :=
  { orgaos := [], arps := [], itens := [], executions := [], errors := [],
    nextId := 0 }

/-- A well-formed listing payload row with parent code `c`. -/
def samplePayload (c : String) : ArpPayload :=
  { orgaoGerenciador := some ⟨some "U1", some "Org1", some "SP"⟩,
    codigoArp := some c, numeroArp := some ("N" ++ c),
    dataInicioVigencia := none, dataFimVigencia := none, objeto := none }

/-- An item payload whose insert succeeds in the fixtures below. -/
def itGood : ItemPayload :=
  { numeroItem := some "1", descricaoItem := some "GOOD",
    valorUnitarioHomologado := some "10.0", quantidadeHomologada := some "2",
    unidadeMedida := some "UN", marca := some "M" }

/-- An item payload whose insert fails in the fixtures below. -/
def itBad : ItemPayload := { itGood with descricaoItem := some "BAD" }

/-- The agency row shared by the fixtures. -/
def orgU1 : OrgaoRow := ⟨"U1", some "Org1", some "SP"⟩

/-- C1 fixture: the upstream page re-delivers code `"A"` with a changed
`numeroArp` (`"N2"` instead of the stored `"N1"`). -/
def c1Env : ApiEnv :=
  { listingResp := .ok
      [ { orgaoGerenciador := some ⟨some "U1", some "Org1", some "SP"⟩,
          codigoArp := some "A", numeroArp := some "N2",
          dataInicioVigencia := some "2024-01-01",
          dataFimVigencia := some "2024-06-30", objeto := some "obj" } ],
    itensResp := fun _ => .ok [],
    itemInsertOk := fun _ => true }

/-- C1 fixture: the store already holds code `"A"` with `numeroArp "N1"`. -/
def c1Store : DbState :=
  { orgaos := [orgU1],
    arps := [{ id := 0, codigo_arp_api := "A", numero_arp := some "N1",
               uasg_id := "U1", data_inicio_vigencia := some "2024-01-01",
               data_fim_vigencia := some "2024-06-30", objeto := some "obj",
               ata_excluido := false }],
    itens := [], executions := [], errors := [], nextId := 1 }

/-! ## Claim C1 -/

/-- C1, counterexample.  The claim states that re-ingesting an existing code
updates the row's mutable fields and `last_synced_at` when the payload
changed.  Concretely: the store holds code `"A"` with `numero_arp = "N1"`,
the upstream page re-delivers `"A"` with `numero_arp = "N2"` (a changed
payload), yet the run leaves the store byte-for-byte unchanged — the
`ON CONFLICT (codigo_arp_api) DO NOTHING` clause never updates anything, and
the `arps` insert of `run_etl` writes no `last_synced_at` at all. -/
theorem c1_counterexample :
    (run_etl c1Env c1Store).2 = FetchResult.ok c1Store ∧
    c1Store.arps.map (fun a => a.numero_arp) = [some "N1"] ∧
    (match c1Env.listingResp with
      | .ok rows => rows.map (fun r => r.numeroArp)
      | .exn _ => []) = [some "N2"] :=
  ⟨by decide, by decide, by decide⟩

/-- C1 (amended): for every parent code already present in the store, a run
never creates a second row with that code and performs no write at all to
the rows carrying it — the upsert is `ON CONFLICT DO NOTHING`, so the
existing row's fields are left unchanged whether or not the upstream payload
changed. -/
theorem c1_no_duplicate_no_update (env : ApiEnv) (st : DbState)
    (reqs : List ApiRequest) (st' : DbState) (c : String)
    (hc : c ∈ arpCodes st)
    (hrun : run_etl env st = (reqs, FetchResult.ok st')) :
    st'.arps.filter (fun a => a.codigo_arp_api = c) =
      st.arps.filter (fun a => a.codigo_arp_api = c) := by
  obtain ⟨rows, -, hst, -⟩ := run_etl_ok hrun
  rw [hst]
  exact processRows_filter env rows st c hc

/-- C1, witness for the amended theorem at the concrete fixture. -/
theorem c1_no_duplicate_no_update_witness :
    "A" ∈ arpCodes c1Store ∧
    c1Store.arps.filter (fun a => a.codigo_arp_api = "A") =
      c1Store.arps.filter (fun a => a.codigo_arp_api = "A") :=
  ⟨by decide,
    c1_no_duplicate_no_update c1Env c1Store
      [ApiRequest.listing "2024-01-01" "2024-12-31" 1] c1Store "A"
      (by decide) (by decide)⟩

/-! ## Claim C2 -/

/-- C2: running the same full load twice over the same upstream data is
idempotent.  Given the same environment (same listing page, same item
responses, all item writes succeeding, agency data consistent within the
page), a second run from the state produced by the first run reproduces that
state exactly — identical row counts and contents, zero parent and zero
child rows inserted on the second pass — and stored parent codes stay
duplicate-free. -/
theorem c2_full_load_idempotent (env : ApiEnv) (st st1 : DbState)
    (rows : List ArpPayload)
    (hl : env.listingResp = FetchResult.ok rows)
    (hcons : OrgConsistent rows)
    (hwr : ∀ it, env.itemInsertOk it = true)
    (h1 : (run_etl env st).2 = FetchResult.ok st1) :
    (run_etl env st1).2 = FetchResult.ok st1 ∧
    ((arpCodes st).Nodup → (arpCodes st1).Nodup) := by
  have hst1 : st1 = (processRows env st rows).1 := by
    unfold run_etl at h1
    rw [hl] at h1
    dsimp only at h1
    rw [FetchResult.ok.injEq] at h1
    exact h1.symm
  constructor
  · unfold run_etl
    rw [hl]
    dsimp only
    rw [FetchResult.ok.injEq, hst1]
    exact processRows_id rows _ (processRows_establish hwr rows st hcons)
  · intro hnd
    rw [hst1]
    exact processRows_nodup env rows st hnd

/-- C2 witness fixture: one new parent with one item, loaded into the empty
store. -/
def c2Env : ApiEnv :=
  { listingResp := .ok [samplePayload "W1"],
    itensResp := fun _ => .ok [itGood],
    itemInsertOk := fun _ => true }

/-- C2 witness fixture: the store after the first run of `c2Env`. -/
def c2FinalSt : DbState :=
  { orgaos := [orgU1],
    arps := [mkArpRow 0 "U1" (samplePayload "W1")],
    itens := [mkItemRow 1 0 itGood],
    executions := [], errors := [], nextId := 2 }

/-- C2, witness: the idempotence theorem applied at the concrete fixture. -/
theorem c2_full_load_idempotent_witness :
    (run_etl c2Env c2FinalSt).2 = FetchResult.ok c2FinalSt ∧
    ((arpCodes emptyDb).Nodup → (arpCodes c2FinalSt).Nodup) :=
  c2_full_load_idempotent c2Env emptyDb c2FinalSt [samplePayload "W1"]
    rfl (by decide) (fun _ => rfl) (by decide)

/-! ## Claim C3 -/

/-- C3: a child record is never persisted without its parent: if every item
row references an existing parent row before the run, the same holds in the
committed state after the run.  Items are only inserted inside the
transaction that inserted their parent row (`arp_id` is the `RETURNING id`
of that insert), and an aborted transaction commits as a rollback, so every
committed child references a parent row existing at commit time. -/
theorem c3_child_requires_parent (env : ApiEnv) (st : DbState)
    (reqs : List ApiRequest) (st' : DbState)
    (hwf : ItemsWF st)
    (hrun : run_etl env st = (reqs, FetchResult.ok st')) : ItemsWF st' := by
  obtain ⟨rows, -, hst, -⟩ := run_etl_ok hrun
  rw [hst]
  exact processRows_wf env rows st hwf

/-- C3 witness fixture: one new parent with two items. -/
def c3Env : ApiEnv :=
  { listingResp := .ok [samplePayload "P"],
    itensResp := fun _ => .ok [itGood, itGood],
    itemInsertOk := fun _ => true }

/-- C3 witness fixture: the store after running `c3Env` on the empty store. -/
def c3FinalSt : DbState :=
  { orgaos := [orgU1],
    arps := [mkArpRow 0 "U1" (samplePayload "P")],
    itens := [mkItemRow 1 0 itGood, mkItemRow 2 0 itGood],
    executions := [], errors := [], nextId := 3 }

/-- C3, witness: referential integrity holds in the concrete committed
state. -/
theorem c3_child_requires_parent_witness : ItemsWF c3FinalSt :=
  c3_child_requires_parent c3Env emptyDb
    [ApiRequest.listing "2024-01-01" "2024-12-31" 1,
     ApiRequest.itens (some "P")] c3FinalSt
    (by decide) (by decide)

/-! ## Claim C4 -/

/-- C4 fixture: the listing fetch raises a network error. -/
def c4Env : ApiEnv :=
  { listingResp := .exn "ConnectionError",
    itensResp := fun _ => .exn "unreachable",
    itemInsertOk := fun _ => true }

/-- C4, divergence witness.  The claim requires a bounded number of retries
with backoff and a `Failure` value — never an exception — past the fetch
boundary.  In the code, a listing fetch that raises makes exactly one
attempt (a single `requests.get` with no retry wrapper, so exactly one
request is ever issued) and the exception propagates uncaught out of
`run_etl` to its caller, aborting the whole run. -/
theorem c4_single_attempt_exception_propagates (st : DbState) :
    run_etl c4Env st =
      ([ApiRequest.listing "2024-01-01" "2024-12-31" 1],
        FetchResult.exn "ConnectionError") := rfl

/-! ## Claim C5 -/

/-- C5 fixture: one listing page with four new parents. -/
def c5Env : ApiEnv :=
  { listingResp := .ok
      [samplePayload "A1", samplePayload "A2", samplePayload "A3",
       samplePayload "A4"],
    itensResp := fun _ => .ok [],
    itemInsertOk := fun _ => true }

/-- C5, divergence witness.  The claim requires a token-bucket rate limiter
admitting at most R requests per second.  The code has no rate limiter, no
token state and no delay of any kind: on a page with four new parents it
issues all five HTTP requests back-to-back, each one immediately after the
previous response, with nothing admitting or pacing them. -/
theorem c5_requests_issued_without_pacing :
    (run_etl c5Env emptyDb).1 =
      [ApiRequest.listing "2024-01-01" "2024-12-31" 1,
       ApiRequest.itens (some "A1"), ApiRequest.itens (some "A2"),
       ApiRequest.itens (some "A3"), ApiRequest.itens (some "A4")] ∧
    (run_etl c5Env emptyDb).1.length = 5 :=
  ⟨by decide, by decide⟩

/-! ## Claim C6 -/

/-- C6, divergence witness.  The claim requires a run started after a crash
to read the last `Running` execution record and resume paging from
`checkpoint.last_page + 1`.  In the code, whatever the store holds — in
particular any `etl_executions` row with status `running` and any checkpoint
value in `last_ata_page_processed` — the one and only listing request of the
run carries the hard-coded parameters with `pagina = 1`: the execution table
is never read, no state is resumed, and no page after 1 is ever fetched. -/
theorem c6_always_requests_page_one (env : ApiEnv) (st : DbState) :
    (run_etl env st).1.head? =
      some (ApiRequest.listing "2024-01-01" "2024-12-31" 1) := by
  unfold run_etl
  cases henv : env.listingResp with
  | ok rows => rfl
  | exn e => rfl

/-! ## Claim C7 -/

/-- C7 fixture: a completed full run whose upstream page contains only the
new code `"NEW"`; the stored parent `"OLD"` is not observed by the run. -/
def c7Env : ApiEnv :=
  { listingResp := .ok [samplePayload "NEW"],
    itensResp := fun _ => .ok [],
    itemInsertOk := fun _ => true }

/-- C7 fixture: the store before the run, holding the un-deleted parent
`"OLD"`. -/
def c7Store : DbState :=
  { orgaos := [orgU1],
    arps := [{ id := 0, codigo_arp_api := "OLD", numero_arp := some "N1",
               uasg_id := "U1", data_inicio_vigencia := none,
               data_fim_vigencia := none, objeto := none,
               ata_excluido := false }],
    itens := [], executions := [], errors := [], nextId := 1 }

/-- C7 fixture: the store after the completed run of `c7Env`. -/
def c7FinalSt : DbState :=
  { orgaos := [orgU1],
    arps := [{ id := 0, codigo_arp_api := "OLD", numero_arp := some "N1",
               uasg_id := "U1", data_inicio_vigencia := none,
               data_fim_vigencia := none, objeto := none,
               ata_excluido := false },
             mkArpRow 1 "U1" (samplePayload "NEW")],
    itens := [], executions := [], errors := [], nextId := 2 }

/-- C7, divergence witness.  The claim requires that after a complete full
run every stored parent not observed upstream is marked deleted.  In the
code the run completes with parent `"OLD"` absent from the upstream page,
yet its `ata_excluido` flag is still `false` (and the row is entirely
unchanged): `run_etl` contains no soft-delete pass and never touches
`ata_excluido`. -/
theorem c7_absent_parent_not_soft_deleted :
    (run_etl c7Env c7Store).2 = FetchResult.ok c7FinalSt ∧
    c7FinalSt.arps.map (fun a => (a.codigo_arp_api, a.ata_excluido)) =
      [("OLD", false), ("NEW", false)] ∧
    (match c7Env.listingResp with
      | .ok rows => rows.map (fun r => pyStr r.codigoArp)
      | .exn _ => []) = ["NEW"] :=
  ⟨by decide, by decide, by decide⟩

/-! ## Claim C8 -/

/-- C8 fixture: parent `"A"` has three items of which the second write
fails; parent `"B"` follows on the same page and succeeds. -/
def c8Env : ApiEnv :=
  { listingResp := .ok [samplePayload "A", samplePayload "B"],
    itensResp := fun c =>
      if c = some "A" then .ok [itGood, itBad, itGood] else .ok [itGood],
    itemInsertOk := fun it => !(it.descricaoItem == some "BAD") }

/-- C8 fixture: the store after running `c8Env` on the empty store: parent
`"A"` has been rolled back entirely, parent `"B"` is committed with its
item, and the error sink is empty. -/
def c8FinalSt : DbState :=
  { orgaos := [orgU1],
    arps := [mkArpRow 0 "U1" (samplePayload "B")],
    itens := [mkItemRow 1 0 itGood],
    executions := [], errors := [], nextId := 2 }

/-- C8, counterexample.  The claim states that a failure partway through a
parent's batch is recorded in the error sink.  Concretely: parent `"A"`'s
second item write fails, its whole batch is rolled back and parent `"B"` is
still processed — both as the claim says — but the `etl_errors` table is
left empty: the failure is only printed, never recorded in any error
sink. -/
theorem c8_counterexample :
    (run_etl c8Env emptyDb).2 = FetchResult.ok c8FinalSt ∧
    c8FinalSt.errors = [] ∧
    c8FinalSt.arps.map (fun a => a.codigo_arp_api) = ["B"] :=
  ⟨by decide, by decide, by decide⟩

/-- C8 (amended): all writes for one parent and its children execute as one
atomic unit — when an item write fails partway, the parent's whole batch
(agency upsert, parent row and items written so far) is rolled back and the
iteration leaves the store exactly as it found it, so the remaining parents
of the page are processed from an unaffected store — but nothing is recorded
in the error sink: no run ever changes the `etl_errors` table. -/
theorem c8_atomic_rollback_without_error_sink :
    (∀ (env : ApiEnv) (st : DbState) (row : ArpPayload)
      (its : List ItemPayload),
      pyStr row.codigoArp ∉ arpCodes st →
      env.itensResp row.codigoArp = FetchResult.ok its →
      (∃ it ∈ its, env.itemInsertOk it = false) →
      (processRow env st row).1 = st) ∧
    (∀ (env : ApiEnv) (st : DbState) (reqs : List ApiRequest) (st' : DbState),
      run_etl env st = (reqs, FetchResult.ok st') →
      st'.errors = st.errors) := by
  constructor
  · intro env st row its habs hresp hfail
    unfold processRow
    dsimp only
    split
    · rename_i heq
      exfalso
      have habs1 : pyStr row.codigoArp ∉
          arpCodes (upsertOrgao st (pyStr (effOrg row).codigo)
            (effOrg row).nome (effOrg row).siglaUf) := by
        rwa [upsertOrgao_arpCodes]
      rw [insertArp_not_mem habs1] at heq
      exact Option.noConfusion heq
    · rename_i arpId heq
      rw [hresp]
      dsimp only
      rw [if_pos (insertItens_aborts env arpId its _ hfail)]
  · intro env st reqs st' hrun
    obtain ⟨rows, -, hst, -⟩ := run_etl_ok hrun
    rw [hst]
    exact processRows_errors env rows st

/-- C8, witness: both conjuncts of the amended theorem at the concrete
fixture — the iteration for parent `"A"` is the identity on the empty store,
and the full run leaves the error sink unchanged. -/
theorem c8_atomic_rollback_without_error_sink_witness :
    (processRow c8Env emptyDb (samplePayload "A")).1 = emptyDb ∧
    c8FinalSt.errors = emptyDb.errors :=
  ⟨c8_atomic_rollback_without_error_sink.1 c8Env emptyDb (samplePayload "A")
      [itGood, itBad, itGood] (by decide) (by decide) (by decide),
    c8_atomic_rollback_without_error_sink.2 c8Env emptyDb
      [ApiRequest.listing "2024-01-01" "2024-12-31" 1,
       ApiRequest.itens (some "A"), ApiRequest.itens (some "B")]
      c8FinalSt (by decide)⟩

/-! ## Claim C9 -/

/-- C9 fixture: the upstream page carries one row with the required field
`codigoArp` missing; its agency object is present and well-formed. -/
def c9Env : ApiEnv :=
  { listingResp := .ok
      [ { orgaoGerenciador := some ⟨some "U1", some "Org1", some "SP"⟩,
          codigoArp := none, numeroArp := some "NX",
          dataInicioVigencia := none, dataFimVigencia := none,
          objeto := none } ],
    itensResp := fun _ => .ok [],
    itemInsertOk := fun _ => true }

/-- C9 fixture: the store after running `c9Env` on the empty store. -/
def c9FinalSt : DbState :=
  { orgaos := [orgU1],
    arps := [{ id := 0, codigo_arp_api := "None", numero_arp := some "NX",
               uasg_id := "U1", data_inicio_vigencia := none,
               data_fim_vigencia := none, objeto := none,
               ata_excluido := false }],
    itens := [], executions := [], errors := [], nextId := 1 }

/-- C9, divergence witness.  The claim requires that a payload with a
missing required field yields a `TransformError`, produces exactly one error
record, and never reaches storage.  In the code there is no transform
validation at all: for a row with `codigoArp` missing, `str(None)` produces
the literal string `"None"`, a parent row with external code `"None"` is
committed to storage, and zero error records are written. -/
theorem c9_invalid_record_reaches_storage :
    (run_etl c9Env emptyDb).2 = FetchResult.ok c9FinalSt ∧
    c9FinalSt.arps.map (fun a => a.codigo_arp_api) = ["None"] ∧
    c9FinalSt.errors = [] ∧
    (match c9Env.listingResp with
      | .ok rows => rows.map (fun r => r.codigoArp)
      | .exn _ => [some ""]) = [none] :=
  ⟨by decide, by decide, by decide, by decide⟩

/-! ## Claim C10 -/

/-- C10: parents whose external code already exists in the store when the
run processes them get no item fetch and no item writes, and their existing
item rows are left entirely unchanged.  Formally: the committed item table
after a successful run is the old table extended with rows referencing only
parent ids allocated during this run (so every pre-existing child row is
untouched and no new child attaches to a pre-existing parent), and every
item request issued is for a parent code that was absent from the store when
the run started. -/
theorem c10_existing_parents_frame (env : ApiEnv) (st : DbState)
    (reqs : List ApiRequest) (st' : DbState)
    (hids : ∀ a ∈ st.arps, a.id < st.nextId)
    (hrun : run_etl env st = (reqs, FetchResult.ok st')) :
    (∃ tl, st'.itens = st.itens ++ tl ∧
      ∀ it ∈ tl, it.arp_id ∉ arpIds st) ∧
    (∀ c, ApiRequest.itens c ∈ reqs → pyStr c ∉ arpCodes st) := by
  obtain ⟨rows, -, hst, hreqs⟩ := run_etl_ok hrun
  constructor
  · obtain ⟨⟨tl, hit, hge⟩, -, -⟩ := grows_processRows env rows st
    refine ⟨tl, by rw [hst]; exact hit, ?_⟩
    intro it hitin hmem
    rw [arpIds, List.mem_map] at hmem
    obtain ⟨a, ha, haeq⟩ := hmem
    have hlt := hids a ha
    rw [haeq] at hlt
    exact absurd (hge it hitin) (not_le.mpr hlt)
  · intro c hc
    rw [hreqs] at hc
    rcases List.mem_cons.mp hc with h | h
    · exact ApiRequest.noConfusion h
    · exact processRows_reqs env rows st c h

/-- C10 witness fixture: the store holds parent `"OLD"` (id 0) with one item
row; the page re-delivers `"OLD"` and introduces `"NEW2"`. -/
def c10Store : DbState :=
  { orgaos := [orgU1],
    arps := [{ id := 0, codigo_arp_api := "OLD", numero_arp := some "NOLD",
               uasg_id := "U1", data_inicio_vigencia := none,
               data_fim_vigencia := none, objeto := none,
               ata_excluido := false }],
    itens := [{ id := 1, arp_id := 0, numero_item := some "1",
                descricao := some "old item", valor_unitario := some "5.0",
                quantidade := some "1", unidade := some "UN",
                marca := none }],
    executions := [], errors := [], nextId := 2 }

/-- C10 witness fixture: the environment re-delivering `"OLD"` plus the new
parent `"NEW2"`. -/
def c10Env : ApiEnv :=
  { listingResp := .ok [samplePayload "OLD", samplePayload "NEW2"],
    itensResp := fun _ => .ok [itGood],
    itemInsertOk := fun _ => true }

/-- C10 witness fixture: the store after running `c10Env` on `c10Store`. -/
def c10FinalSt : DbState :=
  { orgaos := [orgU1],
    arps := [{ id := 0, codigo_arp_api := "OLD", numero_arp := some "NOLD",
               uasg_id := "U1", data_inicio_vigencia := none,
               data_fim_vigencia := none, objeto := none,
               ata_excluido := false },
             mkArpRow 2 "U1" (samplePayload "NEW2")],
    itens := [{ id := 1, arp_id := 0, numero_item := some "1",
                descricao := some "old item", valor_unitario := some "5.0",
                quantidade := some "1", unidade := some "UN",
                marca := none },
              mkItemRow 3 2 itGood],
    executions := [], errors := [], nextId := 4 }

/-- C10, witness: the frame theorem applied at the concrete fixture (only
`"NEW2"` is fetched; `"OLD"`'s item row is untouched). -/
theorem c10_existing_parents_frame_witness :
    (∃ tl, c10FinalSt.itens = c10Store.itens ++ tl ∧
      ∀ it ∈ tl, it.arp_id ∉ arpIds c10Store) ∧
    (∀ c, ApiRequest.itens c ∈
        [ApiRequest.listing "2024-01-01" "2024-12-31" 1,
         ApiRequest.itens (some "NEW2")] →
      pyStr c ∉ arpCodes c10Store) :=
  c10_existing_parents_frame c10Env c10Store
    [ApiRequest.listing "2024-01-01" "2024-12-31" 1,
     ApiRequest.itens (some "NEW2")] c10FinalSt
    (by decide) (by decide)

end AtahubEtl
